import Mathlib

/-!
# Verification of the smart-reading-companion content scripts

Shallow embedding of the browser-extension content scripts
(`content.js` and the shadow-DOM variant) together with proofs of the
specified properties.  DOM-dependent inputs (element texts, hit-test
results, HTTP responses) are modelled as explicit parameters; the pure
string and control logic is translated directly from the source.
-/

namespace SRC

/-! ## JavaScript string primitives

The source uses `String.prototype.trim`, `toLowerCase`, `includes`, and
`String.prototype.replace` with the regexes `/\s+/g`, `/\s+\n/g`,
`/\n{3,}/g`, `/ /g` and the character class for HTML escaping.
Strings are modelled through their character lists. -/

/-- The JavaScript whitespace class `\s` (also the set removed by
`String.prototype.trim`): space, tab, LF, VT, FF, CR, NBSP, and the
Unicode space separators, line/paragraph separators and BOM. -/
def jsWs (c : Char) : Bool :=
  c = ' ' || c = '\t' || c = '\n' || c = '\x0b' || c = '\x0c' || c = '\r' ||
  c = '\u00A0' || c = '\u1680' || ('\u2000' <= c && c <= '\u200A') ||
  c = '\u2028' || c = '\u2029' || c = '\u202F' || c = '\u205F' || c = '\u3000' ||
  c = '\uFEFF'

/-- Drop trailing whitespace (the right half of `trim`): a character is
kept unless it is whitespace and everything after it was dropped. -/
def dropTrailWs : List Char → List Char
  | [] => []
  | c :: cs =>
    if dropTrailWs cs = [] ∧ jsWs c then [] else c :: dropTrailWs cs

/-- `String.prototype.trim` on character lists: drop leading and trailing
JavaScript whitespace. -/
def trimList (l : List Char) : List Char :=
  dropTrailWs (l.dropWhile jsWs)

/-- `String.prototype.trim`. -/
def jsTrim (s : String) : String :=
  ⟨trimList s.toList⟩

/-- A string equal to its own `trim` (leading/trailing whitespace free). -/
def IsTrimmed (s : String) : Prop := jsTrim s = s

/-- `leadsWith needle hay`: `needle` occurs at the start of `hay`. -/
def leadsWith : List Char → List Char → Bool
  | [], _ => true
  | _ :: _, [] => false
  | a :: as, b :: bs => a = b && leadsWith as bs

/-- `hay.includes(needle)` of JavaScript: `needle` occurs contiguously in
`hay`. -/
def containsSub (needle : List Char) : List Char → Bool
  | [] => leadsWith needle []
  | c :: t => leadsWith needle (c :: t) || containsSub needle t

/-- `t.includes(sub)` on strings (`t` is scanned for `sub`). -/
def strIncludes (t sub : String) : Bool :=
  containsSub sub.toList t.toList

/-- `String.prototype.toLowerCase`, as a character-wise map. -/
def jsToLower (s : String) : String :=
  ⟨s.toList.map Char.toLower⟩

/-! ## 4.1 Noise Classifier — `isNoiseParagraph` (content.js lines 26–35) -/

/-- The configured boilerplate phrase fragments of `isNoiseParagraph`. -/
def noisePhrases : List String :=
  ["i am a bot", "performed automatically", "contact the moderators",
   "shortstories is a place for"]

/-- `isNoiseParagraph` from content.js: lowercase the text, then test the
four phrase fragments and the rules/report/moderators conjunction. -/
def isNoiseParagraph (text : String) : Bool :=
  let t := jsToLower text
  strIncludes t "i am a bot" ||
  strIncludes t "performed automatically" ||
  strIncludes t "contact the moderators" ||
  strIncludes t "shortstories is a place for" ||
  (strIncludes t "rules" && strIncludes t "report" && strIncludes t "moderators")

/-! ## Regex replacements used by the source

`replace(/\n{3,}/g, "\n\n")` rewrites every maximal newline run of length
at least three to exactly two newlines; `replace(/\s+/g, " ")` rewrites
every maximal whitespace run to a single space; `replace(/\s+\n/g, "\n")`
rewrites, inside each maximal whitespace run, the prefix up to the last
newline (when that prefix has length at least two) to a single newline,
which is exactly what the leftmost-greedy global regex does. -/

/-- Emit a newline run after `\n{3,}` collapsing: a run of `n` newlines
becomes two when `n ≥ 3` and stays `n` otherwise. -/
def emitNlRun (n : Nat) : List Char :=
  if n ≥ 3 then ['\n', '\n'] else List.replicate n '\n'

/-- Accumulator pass for `replace(/\n{3,}/g, "\n\n")`; `n` counts the
newlines of the run currently being read. -/
def collapseNlGo : Nat → List Char → List Char
  | n, [] => emitNlRun n
  | n, c :: cs =>
    if c = '\n' then collapseNlGo (n + 1) cs
    else emitNlRun n ++ c :: collapseNlGo 0 cs

/-- `replace(/\n{3,}/g, "\n\n")` on character lists. -/
def collapseNlList (l : List Char) : List Char :=
  collapseNlGo 0 l

/-- Accumulator pass for `replace(/\s+/g, " ")`; the flag records whether
the scanner is inside a whitespace run (whose single space has already
been emitted). -/
def collWsGo : Bool → List Char → List Char
  | _, [] => []
  | inRun, c :: cs =>
    if jsWs c then
      (if inRun then collWsGo true cs else ' ' :: collWsGo true cs)
    else c :: collWsGo false cs

/-- Normalized length: `text.replace(/\s+/g, " ").length` from the
source's richness thresholds. -/
def normLen (s : String) : Nat :=
  (collWsGo false s.toList).length

/-- Rewrite one maximal whitespace run `w` for `replace(/\s+\n/g, "\n")`:
the leftmost match inside `w` is the prefix ending at the last newline of
`w`, provided that prefix has at least two characters; it is replaced by
a single newline and no further match fits in the remainder of the run. -/
def squashWsRun (w : List Char) : List Char :=
  let revTail := w.reverse.takeWhile (fun c => ¬ c = '\n')
  let revHead := w.reverse.dropWhile (fun c => ¬ c = '\n')
  if revHead.length ≥ 2 then '\n' :: revTail.reverse else w

/-- Accumulator pass for `replace(/\s+\n/g, "\n")`; `run` holds the
current whitespace run in reverse order. -/
def collWsNlGo : List Char → List Char → List Char
  | run, [] => squashWsRun run.reverse
  | run, c :: cs =>
    if jsWs c then collWsNlGo (c :: run) cs
    else squashWsRun run.reverse ++ c :: collWsNlGo [] cs

/-- `replace(/\s+\n/g, "\n")` on character lists. -/
def collWsNlList (l : List Char) : List Char :=
  collWsNlGo [] l

/-- `replace` of each non-breaking space (U+00A0) by a plain space. -/
def nbspToSpace (c : Char) : Char :=
  if c = '\u00A0' then ' ' else c

/-- The step-6 final normalization of `extractArticleText` (content.js
line 159): replace non-breaking spaces, then `.replace(/\s+\n/g, "\n")
.replace(/\n{3,}/g, "\n\n").trim()`. -/
def normalizeText (s : String) : String :=
  ⟨trimList (collapseNlList (collWsNlList (s.toList.map nbspToSpace)))⟩

/-! ## 4.2 Text Collector — `collectText` (content.js lines 37–45)

The DOM dependency is the list of `innerText` values of the elements
matched by `querySelectorAll("p, li, h2, h3, h4, blockquote, pre")`, in
document order; an absent container is `none`. -/

/-- `Array.prototype.join("\n\n")`. -/
def joinBlank : List String → String
  | [] => ""
  | [s] => s
  | s :: rest => s ++ "\n\n" ++ joinBlank rest

/-- The parts kept by `collectText`: each element text trimmed, empty
strings and noisy paragraphs discarded. -/
def collectParts (texts : List String) : List String :=
  (texts.map jsTrim).filter (fun s => !(s = "") && !isNoiseParagraph s)

/-- `collectText` from content.js: `""` for an absent container,
otherwise the kept parts joined with blank lines, newline runs of three
or more collapsed to two, and the result trimmed. -/
def collectText (container : Option (List String)) : String :=
  match container with
  | none => ""
  | some texts => jsTrim ⟨collapseNlList (joinBlank (collectParts texts)).toList⟩

/-- Checker for the output invariant of `collectText`: `runsOk k l` holds
when every maximal newline run of `l` has length at most two, `k` being
the newline count accumulated so far.  `noTriple l` says `l` has no run
of three or more consecutive newlines. -/
def runsOk : Nat → List Char → Bool
  | k, [] => k ≤ 2
  | k, c :: cs => if c = '\n' then runsOk (k + 1) cs else (k ≤ 2) && runsOk 0 cs

/-- `l` contains no run of 3 or more consecutive newline characters. -/
def noTriple (l : List Char) : Bool :=
  runsOk 0 l

/-! ## 4.5 Extraction Orchestrator — `extractArticleText` (content.js
lines 123–161)

The DOM-dependent strategy results are the inputs: the Reddit extractor's
`{title, text}` (its `text` is a `collectText` output), the
largest-text-block heuristic's text (also a `collectText` output), the
`Readability` fallback's article (`none` when the constructor or `parse`
threw or returned null), and `document.title`.  A field that JavaScript
would see as absent or falsy is the empty string. -/

/-- `jsOr a b` is JavaScript `a || b` on strings. -/
def jsOr (a b : String) : String :=
  if a = "" then b else a

/-- Result of a `Readability(...).parse()` call; `""` encodes an absent
or falsy field. -/
structure ReadabilityArticle where
  title : String
  textContent : String
deriving DecidableEq

/-- The page-dependent inputs of one `extractArticleText` run. -/
structure Page where
  /-- `location.hostname.endsWith("reddit.com")`. -/
  isReddit : Bool
  /-- `extractReddit().title`. -/
  siteTitle : String
  /-- `extractReddit().text`, a `collectText` output. -/
  siteText : String
  /-- `largestTextBlock().text`, a `collectText` output. -/
  largestText : String
  /-- `new Readability(document.cloneNode(true)).parse()`; `none` when it
  threw or returned null. -/
  readability : Option ReadabilityArticle
  /-- `document.title`. -/
  docTitle : String
deriving DecidableEq

/-- The events of one `extractArticleText` run, in execution order. -/
inductive Step where
  /-- `await new Promise(r => setTimeout(r, 300))`. -/
  | settleDelay
  /-- `expandCollapsers()`. -/
  | expand
  /-- the site-specific `extractReddit()` call. -/
  | siteExtract
  /-- the `largestTextBlock()` candidate scan. -/
  | scanCandidates
  /-- the `Readability` fallback. -/
  | readabilityFallback
deriving DecidableEq

/-- `{title, text}` as returned by `extractArticleText`. -/
structure ExtractionResult where
  title : String
  text : String
deriving DecidableEq

/-- The message of the `ExtractionFailed` error (content.js line 157). -/
def extractionFailedMsg : String :=
  "Could not extract article content on this page."

/-- The `text` variable after step 2 (site-specific extraction): the
Reddit extractor's text on Reddit hosts, otherwise still `""`. -/
def step2Text (p : Page) : String :=
  if p.isReddit then p.siteText else ""

/-- The `title` variable after step 2. -/
def step2Title (p : Page) : String :=
  if p.isReddit then p.siteTitle else ""

/-- The guard of step 3 (content.js line 138):
`!text || text.replace(/\s+/g, " ").length < 800`. -/
def scannerCond (p : Page) : Bool :=
  step2Text p = "" || normLen (step2Text p) < 800

/-- The `text` variable after step 3: the largest text block is adopted
when the guard fired, the block is truthy and strictly longer. -/
def step3Text (p : Page) : String :=
  if scannerCond p then
    (if !(p.largestText = "") && (step2Text p).length < p.largestText.length
     then p.largestText else step2Text p)
  else step2Text p

/-- The guard of step 4 (content.js line 144):
`!text || text.replace(/\s+/g, " ").length < 400`. -/
def readabCond (p : Page) : Bool :=
  step3Text p = "" || normLen (step3Text p) < 400

/-- The `(title, text)` pair after step 4 (the `Readability` fallback):
when the guard fired and `article?.textContent` is truthy, the title is
re-resolved as `(article.title || title || document.title || "").trim()`
and the trimmed text content is adopted when strictly longer. -/
def step4 (p : Page) : String × String :=
  if readabCond p then
    match p.readability with
    | none => (step2Title p, step3Text p)
    | some a =>
      if !(a.textContent = "") then
        ((jsTrim (jsOr a.title (jsOr (step2Title p) (jsOr p.docTitle "")))),
         (if (step3Text p).length < (jsTrim a.textContent).length
          then jsTrim a.textContent else step3Text p))
      else (step2Title p, step3Text p)
  else (step2Title p, step3Text p)

deriving instance DecidableEq for Except

/-- Everything observable about one `extractArticleText` run. -/
structure ExtractOutcome where
  /-- The returned `{title, text}`, or the thrown error message. -/
  result : Except String ExtractionResult
  /-- The `text` variable at the line-157 emptiness check, before the
  step-6 normalization. -/
  heldText : String
  /-- Whether `largestTextBlock()` (the Candidate Scanner) ran. -/
  scannerInvoked : Bool
  /-- Whether the `Readability` fallback ran. -/
  readabilityInvoked : Bool
  /-- The run's events in execution order. -/
  trace : List Step
deriving DecidableEq

/-- `extractArticleText` from content.js: settle delay, expander, the
three-strategy chain, title fallback, the emptiness check and the final
normalization. -/
def extractArticleText (p : Page) : ExtractOutcome :=
  let title2 := (step4 p).1
  let text2 := (step4 p).2
  { result :=
      if text2 = "" then .error extractionFailedMsg
      else .ok ⟨if title2 = "" then p.docTitle else title2, normalizeText text2⟩
    heldText := text2
    scannerInvoked := scannerCond p
    readabilityInvoked := readabCond p
    trace :=
      [Step.settleDelay, Step.expand] ++
      (if p.isReddit then [Step.siteExtract] else []) ++
      (if scannerCond p then [Step.scanCandidates] else []) ++
      (if readabCond p then [Step.readabilityFallback] else []) }

/-! ## 4.7 Summarization Client — `summarizeText`

Modelled from the `fetch` response onward: the status, the `text()` body
(`none` when reading it rejected, handled by `.catch(() => "")`), and
the `summary` field of the parsed JSON (`none` when absent).  The thrown
`Error` messages map onto the specified error taxonomy:
"Backend error STATUS: BODY" is `backendError` and "Backend returned no
summary field." is `malformedResponse`. -/

/-- The HTTP response as the client observes it. -/
structure HttpResponse where
  status : Nat
  /-- `await resp.text()`; `none` when it rejected. -/
  bodyText : Option String
  /-- the `summary` field of `await resp.json()`; `none` when absent. -/
  summaryField : Option String
deriving DecidableEq

/-- `resp.ok`: status in the 2xx range. -/
def respOk (r : HttpResponse) : Bool :=
  200 ≤ r.status && r.status ≤ 299

/-- The client's error taxonomy. -/
inductive SummarizeError where
  /-- "Backend error STATUS: BODY" — non-2xx status with body text. -/
  | backendError : Nat → String → SummarizeError
  /-- "Backend returned no summary field." -/
  | malformedResponse : SummarizeError
deriving DecidableEq

/-- `summarizeText` of content.js lines 164–177 (the shadow-DOM variant
at part_000 lines 31–44 is identical from the response onward): non-`ok`
throws the backend error with the status and recovered body; a falsy
`data.summary` (absent field or empty string) throws the
no-summary-field error; otherwise `data.summary` is returned. -/
def summarizeText (r : HttpResponse) : Except SummarizeError String :=
  if respOk r then
    match r.summaryField with
    | none => .error .malformedResponse
    | some s => if s = "" then .error .malformedResponse else .ok s
  else .error (.backendError r.status (r.bodyText.getD ""))

/-- `summarizeText` of the second content-script variant (content.js
lines 322–334): same non-`ok` handling, but a 2xx response returns
`data.summary || ""` — an absent summary field yields the empty string
rather than an error. -/
def summarizeTextSimple (r : HttpResponse) : Except SummarizeError String :=
  if respOk r then .ok (r.summaryField.getD "")
  else .error (.backendError r.status (r.bodyText.getD ""))

/-! ## Activation handler — `tldrBtn.onclick` (content.js lines 238–255)

The backend is a parameter (a function from the posted text to the
client's result), so the handler model records whether it was called. -/

/-- `String(err.message)` for the client's errors. -/
def errMessage : SummarizeError → String
  | .backendError status body => "Backend error " ++ toString status ++ ": " ++ body
  | .malformedResponse => "Backend returned no summary field."

/-- What one click leaves on screen, and whether the backend ran. -/
structure ClickOutcome where
  overlayTitle : String
  overlayBody : String
  summarizeCalled : Bool
deriving DecidableEq

/-- The message of the `TooShortToSummarize` error (content.js line
245). -/
def tooShortMsg : String :=
  "Extracted text is too short to summarize."

/-- The click handler: extract, reject text under 80 characters before
any backend call, then summarize and show the overlay; every thrown
error is shown as a "Summary Error" overlay. -/
def tldrOnClick (p : Page) (backend : String → Except SummarizeError String) :
    ClickOutcome :=
  match (extractArticleText p).result with
  | .error msg => ⟨"Summary Error", msg, false⟩
  | .ok r =>
    if r.text.length < 80 then ⟨"Summary Error", tooShortMsg, false⟩
    else
      match backend r.text with
      | .ok summary => ⟨r.title, summary, true⟩
      | .error e => ⟨"Summary Error", errMessage e, true⟩

/-! ## Overlay header escaping — `escapeHtml` (content.js lines 231–235)

`String(s).replace(/[&<>"']/g, c => map[c])` with the five-entity map. -/

/-- The per-character replacement of `escapeHtml`. -/
def escChar (c : Char) : List Char :=
  if c = '&' then "&amp;".toList
  else if c = '<' then "&lt;".toList
  else if c = '>' then "&gt;".toList
  else if c = '"' then "&quot;".toList
  else if c = '\'' then "&#39;".toList
  else [c]

/-- `escapeHtml` from content.js (identical in all three variants). -/
def escapeHtml (s : String) : String :=
  ⟨s.toList.flatMap escChar⟩

/-- The five entities `escapeHtml` may emit. -/
def htmlEntities : List String :=
  ["&amp;", "&lt;", "&gt;", "&quot;", "&#39;"]

/-- No raw `<`, `>`, `"` or `'` character occurs in `l`. -/
def noRawSpecials (l : List Char) : Bool :=
  l.all (fun c => !(c = '<' || c = '>' || c = '"' || c = '\''))

/-- Every `&` in `l` begins one of the five entities. -/
def ampOk : List Char → Bool
  | [] => true
  | c :: rest =>
    (if c = '&'
     then htmlEntities.any (fun e => leadsWith e.toList (c :: rest))
     else true) && ampOk rest

/-- The overlay header markup built at content.js line 194:
the title is interpolated only through `escapeHtml`. -/
def headerHtml (title : String) : String :=
  "<div>Summary — " ++ escapeHtml title ++ "</div>"

/-! ## 4.6 Placement Engine (part_000 lines 172–232)

The style offsets of the host element are the state; `'auto'` is `none`.
The clickability hit-test (`document.elementFromPoint` at the control's
center compared against the control) depends on the page, so it is a
parameter `click : HostPos → Bool`. -/

/-- The four position offsets of `tldrHost.style`, in pixels; `none` is
`'auto'`. -/
structure HostPos where
  left : Option Int
  right : Option Int
  top : Option Int
  bottom : Option Int
deriving DecidableEq

/-- The four corners in source order: bottom-right, bottom-left,
top-right, top-left (part_000 lines 172–177, as applied by
`applyCorner`). -/
def cornerPositions : List HostPos :=
  [⟨none, some 16, none, some 16⟩,
   ⟨some 16, none, none, some 16⟩,
   ⟨none, some 16, some 16, none⟩,
   ⟨some 16, none, some 16, none⟩]

/-- The fallback positions of the sliding loop (part_000 lines 198–206):
right 16, bottom `16 + offset` for `offset = 100, 200, 300, 400, 500`. -/
def fallbackPositions : List HostPos :=
  [⟨none, some 16, none, some 116⟩,
   ⟨none, some 16, none, some 216⟩,
   ⟨none, some 16, none, some 316⟩,
   ⟨none, some 16, none, some 416⟩,
   ⟨none, some 16, none, some 516⟩]

/-- All positions `ensureVisible` may try, in order. -/
def candidatePositions : List HostPos :=
  cornerPositions ++ fallbackPositions

/-- Apply-then-test search: each candidate is applied and then
hit-tested, so on total failure the control remains at the last applied
candidate. -/
def searchFrom (click : HostPos → Bool) : List HostPos → HostPos → HostPos
  | [], cur => cur
  | c :: cs, _ => if click c then c else searchFrom click cs c

/-- `ensureVisible` from part_000 lines 193–207: try the four corners,
then the five fallback offsets, stopping at the first that hit-tests
clickable; the position on entry is `cur`. -/
def ensureVisible (click : HostPos → Bool) (cur : HostPos) : HostPos :=
  searchFrom click candidatePositions cur

/-- `mousedown` (part_000 lines 216–222): record the starting right and
bottom offsets, `parseInt` treating `'auto'` as 16. -/
def onMouseDown (cur : HostPos) : Int × Int :=
  (cur.right.getD 16, cur.bottom.getD 16)

/-- `onDrag` (part_000 lines 223–227): move by the pointer delta,
clamped at zero. -/
def onDragMove (startRight startBottom sx sy cx cy : Int) (cur : HostPos) :
    HostPos :=
  { cur with
    right := some (max 0 (startRight + (sx - cx)))
    bottom := some (max 0 (startBottom + (sy - cy))) }

/-- `onUp` (part_000 lines 228–232): stop dragging and run
`ensureVisible()` from the dragged position.  The scroll, resize and
mutation listeners (lines 209–212) invoke the same `ensureVisible`. -/
def onUp (click : HostPos → Bool) (cur : HostPos) : HostPos :=
  ensureVisible click cur

/-! ## Supporting lemmas: trimming and whitespace preservation -/

/-- The non-whitespace characters of `l`, in order. -/
def nonWsChars (l : List Char) : List Char :=
  l.filter (fun c => !jsWs c)

theorem dropTrailWs_append_eq (l : List Char) :
    ∃ t, l = dropTrailWs l ++ t := by
  induction l with
  | nil => exact ⟨[], rfl⟩
  | cons c cs ih =>
    obtain ⟨t, ht⟩ := ih
    rw [dropTrailWs]
    by_cases h : dropTrailWs cs = [] ∧ jsWs c
    · exact ⟨c :: cs, by simp [h]⟩
    · refine ⟨t, ?_⟩
      rw [if_neg h, List.cons_append]
      exact congrArg (c :: ·) ht

theorem length_dropTrailWs_le (l : List Char) :
    (dropTrailWs l).length ≤ l.length := by
  obtain ⟨t, ht⟩ := dropTrailWs_append_eq l
  conv_rhs => rw [ht]
  rw [List.length_append]
  exact Nat.le_add_right _ _

theorem length_dropWhile_le' (p : Char → Bool) (l : List Char) :
    (l.dropWhile p).length ≤ l.length := by
  induction l with
  | nil => simp
  | cons c cs ih =>
    by_cases h : p c
    · simp only [List.dropWhile_cons, h, if_true]
      exact le_trans ih (Nat.le_succ _)
    · simp [List.dropWhile_cons, h]

theorem nonWsChars_dropWhile (l : List Char) :
    nonWsChars (l.dropWhile jsWs) = nonWsChars l := by
  induction l with
  | nil => rfl
  | cons c cs ih =>
    by_cases h : jsWs c
    · simp [List.dropWhile_cons, h, nonWsChars, List.filter_cons] at ih ⊢
      exact ih
    · simp [List.dropWhile_cons, h]

theorem nonWsChars_dropTrailWs (l : List Char) :
    nonWsChars (dropTrailWs l) = nonWsChars l := by
  induction l with
  | nil => rfl
  | cons c cs ih =>
    rw [dropTrailWs]
    by_cases h : dropTrailWs cs = [] ∧ jsWs c
    · rw [if_pos h]
      have hcs : nonWsChars cs = [] := by rw [← ih, h.1]; rfl
      simp [nonWsChars, List.filter_cons, h.2, hcs] at hcs ⊢
      exact hcs
    · rw [if_neg h]
      by_cases hw : jsWs c <;> simpa [nonWsChars, List.filter_cons, hw] using ih

theorem nonWsChars_trimList (l : List Char) :
    nonWsChars (trimList l) = nonWsChars l := by
  unfold trimList
  rw [nonWsChars_dropTrailWs, nonWsChars_dropWhile]

theorem nonWsChars_map_nbsp (l : List Char) :
    nonWsChars (l.map nbspToSpace) = nonWsChars l := by
  induction l with
  | nil => rfl
  | cons c cs ih =>
    by_cases h : c = '\u00A0'
    · subst h
      simp only [List.map_cons, nbspToSpace, if_pos rfl]
      have h1 : jsWs ' ' = true := by decide
      have h2 : jsWs '\u00A0' = true := by decide
      simpa [nonWsChars, List.filter_cons, h1, h2] using ih
    · simp only [List.map_cons, nbspToSpace, if_neg h]
      have hrec := ih
      simp only [nonWsChars, List.filter_cons] at hrec ⊢
      rcases Bool.eq_false_or_eq_true (jsWs c) with hw | hw <;> simp [hw, hrec]

theorem squashWsRun_all_ws {w : List Char} (hw : ∀ c ∈ w, jsWs c = true) :
    ∀ c ∈ squashWsRun w, jsWs c = true := by
  intro c hc
  simp only [squashWsRun] at hc
  split at hc
  · rcases List.mem_cons.mp hc with h | h
    · subst h; decide
    · have hmem : c ∈ w.reverse :=
        List.takeWhile_subset _ (by simpa using h)
      exact hw c (List.mem_reverse.mp hmem)
  · exact hw c hc

theorem nonWsChars_all_ws {w : List Char} (hw : ∀ c ∈ w, jsWs c = true) :
    nonWsChars w = [] := by
  simp only [nonWsChars, List.filter_eq_nil_iff]
  intro c hc
  simp [hw c hc]

theorem nonWsChars_collWsNlGo (cs : List Char) :
    ∀ run, (∀ c ∈ run, jsWs c = true) →
      nonWsChars (collWsNlGo run cs) = nonWsChars cs := by
  induction cs with
  | nil =>
    intro run hrun
    unfold collWsNlGo
    exact nonWsChars_all_ws (squashWsRun_all_ws (by simpa using hrun))
  | cons c cs ih =>
    intro run hrun
    unfold collWsNlGo
    by_cases h : jsWs c
    · rw [if_pos h]
      have hrun' : ∀ x ∈ c :: run, jsWs x = true := by
        intro x hx
        rcases List.mem_cons.mp hx with hx | hx
        · subst hx; exact h
        · exact hrun x hx
      rw [ih (c :: run) hrun']
      simp [nonWsChars, List.filter_cons, h]
    · rw [if_neg h]
      have hsq : nonWsChars (squashWsRun run.reverse) = [] :=
        nonWsChars_all_ws (squashWsRun_all_ws (by simpa using hrun))
      have hrec := ih [] (by simp)
      simp only [nonWsChars, List.filter_append, List.filter_cons] at hsq hrec ⊢
      simp [hsq, h, hrec]

theorem nonWsChars_collWsNlList (l : List Char) :
    nonWsChars (collWsNlList l) = nonWsChars l :=
  nonWsChars_collWsNlGo l [] (by simp)

theorem nonWsChars_emitNlRun (n : Nat) :
    nonWsChars (emitNlRun n) = [] := by
  apply nonWsChars_all_ws
  intro c hc
  unfold emitNlRun at hc
  split at hc
  · simp only [List.mem_cons, List.not_mem_nil, or_false] at hc
    rcases hc with h | h <;> (subst h; decide)
  · rw [List.eq_of_mem_replicate hc]; decide

theorem nonWsChars_collapseNlGo (cs : List Char) :
    ∀ n, nonWsChars (collapseNlGo n cs) = nonWsChars cs := by
  induction cs with
  | nil => intro n; unfold collapseNlGo; exact nonWsChars_emitNlRun n
  | cons c cs ih =>
    intro n
    unfold collapseNlGo
    by_cases h : c = '\n'
    · rw [if_pos h, ih]
      subst h
      have : jsWs '\n' = true := by decide
      simp [nonWsChars, List.filter_cons, this]
    · rw [if_neg h]
      have hemit := nonWsChars_emitNlRun n
      have hrec := ih 0
      simp only [nonWsChars, List.filter_append, List.filter_cons] at hemit hrec ⊢
      rcases Bool.eq_false_or_eq_true (jsWs c) with hw | hw <;> simp [hemit, hrec, hw]

theorem nonWsChars_collapseNlList (l : List Char) :
    nonWsChars (collapseNlList l) = nonWsChars l :=
  nonWsChars_collapseNlGo l 0

theorem toList_mk (l : List Char) : (String.mk l).toList = l := rfl

theorem nonWsChars_normalizeText (s : String) :
    nonWsChars (normalizeText s).toList = nonWsChars s.toList := by
  unfold normalizeText
  rw [toList_mk, nonWsChars_trimList, nonWsChars_collapseNlList,
    nonWsChars_collWsNlList, nonWsChars_map_nbsp]

/-! ## Supporting lemmas: trim idempotence -/

theorem dropWhile_self_of_append {p : Char → Bool} {u v : List Char}
    (h : (u ++ v).dropWhile p = u ++ v) : u.dropWhile p = u := by
  cases u with
  | nil => rfl
  | cons a u' =>
    by_cases ha : p a
    · exfalso
      have h1 : ((a :: u') ++ v).dropWhile p = (u' ++ v).dropWhile p := by
        simp [List.dropWhile_cons, ha]
      rw [h1] at h
      have h3 : ((u' ++ v).dropWhile p).length = (a :: u' ++ v).length :=
        congrArg List.length h
      simp only [List.length_cons, List.length_append] at h3
      have h2 := length_dropWhile_le' p (u' ++ v)
      rw [List.length_append] at h2
      omega
    · simp [List.dropWhile_cons, ha]

theorem dropTrailWs_idem (l : List Char) :
    dropTrailWs (dropTrailWs l) = dropTrailWs l := by
  induction l with
  | nil => rfl
  | cons c cs ih =>
    rw [dropTrailWs]
    by_cases h : dropTrailWs cs = [] ∧ jsWs c
    · rw [if_pos h]; rfl
    · rw [if_neg h, dropTrailWs, ih]
      rw [if_neg h]

theorem trimList_idem (l : List Char) :
    trimList (trimList l) = trimList l := by
  unfold trimList
  obtain ⟨t, ht⟩ := dropTrailWs_append_eq (l.dropWhile jsWs)
  have hd : (l.dropWhile jsWs).dropWhile jsWs = l.dropWhile jsWs :=
    List.dropWhile_idempotent jsWs l
  rw [ht] at hd
  rw [dropWhile_self_of_append hd, dropTrailWs_idem]

theorem jsTrim_isTrimmed (s : String) : IsTrimmed (jsTrim s) := by
  unfold IsTrimmed jsTrim
  rw [toList_mk, trimList_idem]

theorem isTrimmed_empty : IsTrimmed "" := rfl

/-- A non-empty trimmed string starts with a non-whitespace character. -/
theorem head_not_ws_of_trimmed {s : String} (h : IsTrimmed s) (hne : s ≠ "") :
    ∃ c cs, s.toList = c :: cs ∧ jsWs c = false := by
  have hlist : trimList s.toList = s.toList := by
    have := congrArg String.toList h
    simpa [jsTrim, toList_mk] using this
  have hnil : s.toList ≠ [] := by
    intro hcon
    apply hne
    cases s with
    | mk data =>
      simp only [String.toList] at hcon
      simp [hcon]
  cases hl : s.toList with
  | nil => exact absurd hl hnil
  | cons c cs =>
    refine ⟨c, cs, rfl, ?_⟩
    by_contra hws
    have hws' : jsWs c = true := by
      simp only [Bool.not_eq_false] at hws
      exact hws
    have hdw : (c :: cs).dropWhile jsWs = cs.dropWhile jsWs := by
      simp [List.dropWhile_cons, hws']
    have hlen : (trimList (c :: cs)).length ≤ cs.length := by
      unfold trimList
      rw [hdw]
      exact le_trans (length_dropTrailWs_le _) (length_dropWhile_le' _ _)
    rw [hl] at hlist
    rw [hlist] at hlen
    simp only [List.length_cons] at hlen
    omega

/-- The key non-emptiness lemma: the step-6 normalization of a non-empty
trimmed string is non-empty (all its non-whitespace characters are
kept). -/
theorem normalizeText_ne_empty {s : String} (h : IsTrimmed s) (hne : s ≠ "") :
    normalizeText s ≠ "" := by
  obtain ⟨c, cs, hl, hcw⟩ := head_not_ws_of_trimmed h hne
  have hy : nonWsChars (normalizeText s).toList = nonWsChars s.toList :=
    nonWsChars_normalizeText s
  have hnon : nonWsChars s.toList ≠ [] := by
    rw [hl]
    simp [nonWsChars, List.filter_cons, hcw]
  intro hcon
  rw [hcon] at hy
  exact hnon (by simpa [nonWsChars] using hy.symm)

/-- Identity of emptiness through normalization, on trimmed strings. -/
theorem normalizeText_eq_empty_iff {s : String} (h : IsTrimmed s) :
    normalizeText s = "" ↔ s = "" := by
  constructor
  · intro hn
    by_contra hne
    exact normalizeText_ne_empty h hne hn
  · intro hs
    subst hs
    rfl

/-! ## Supporting lemmas: newline runs -/

theorem runsOk_le {k : Nat} {l : List Char} (h : runsOk k l = true) : k ≤ 2 := by
  induction l generalizing k with
  | nil => simpa [runsOk] using h
  | cons c cs ih =>
    rw [runsOk] at h
    by_cases hc : c = '\n'
    · rw [if_pos hc] at h
      exact Nat.le_of_succ_le (ih h)
    · rw [if_neg hc, Bool.and_eq_true, decide_eq_true_eq] at h
      exact h.1

theorem runsOk_mono {j k : Nat} {l : List Char} (hjk : j ≤ k)
    (h : runsOk k l = true) : runsOk j l = true := by
  induction l generalizing j k with
  | nil =>
    rw [runsOk] at h ⊢
    rw [decide_eq_true_eq] at h ⊢
    omega
  | cons c cs ih =>
    rw [runsOk] at h ⊢
    by_cases hc : c = '\n'
    · rw [if_pos hc] at h ⊢
      exact ih (Nat.succ_le_succ hjk) h
    · rw [if_neg hc] at h ⊢
      rw [Bool.and_eq_true, decide_eq_true_eq] at h ⊢
      exact ⟨by omega, h.2⟩

theorem runsOk_tail {k : Nat} {c : Char} {cs : List Char}
    (h : runsOk k (c :: cs) = true) : runsOk 0 cs = true := by
  rw [runsOk] at h
  by_cases hc : c = '\n'
  · rw [if_pos hc] at h
    exact runsOk_mono (Nat.zero_le _) h
  · rw [if_neg hc, Bool.and_eq_true] at h
    exact h.2

theorem runsOk_of_append {u v : List Char} {k : Nat}
    (h : runsOk k (u ++ v) = true) : runsOk k u = true := by
  induction u generalizing k with
  | nil =>
    rw [runsOk, decide_eq_true_eq]
    exact runsOk_le h
  | cons a u' ih =>
    rw [List.cons_append, runsOk] at h
    rw [runsOk]
    by_cases ha : a = '\n'
    · rw [if_pos ha] at h ⊢
      exact ih h
    · rw [if_neg ha] at h ⊢
      rw [Bool.and_eq_true] at h ⊢
      exact ⟨h.1, ih h.2⟩

theorem runsOk_replicate (m : Nat) (k : Nat) (rest : List Char) :
    runsOk k (List.replicate m '\n' ++ rest) = runsOk (k + m) rest := by
  induction m generalizing k with
  | zero => simp
  | succ m ih =>
    rw [List.replicate_succ, List.cons_append, runsOk, if_pos rfl, ih]
    congr 1
    omega

theorem runsOk_collapseNlGo (cs : List Char) :
    ∀ n, runsOk 0 (collapseNlGo n cs) = true := by
  induction cs with
  | nil =>
    intro n
    rw [collapseNlGo]
    unfold emitNlRun
    by_cases h : n ≥ 3
    · rw [if_pos h]; decide
    · rw [if_neg h]
      have := runsOk_replicate n 0 []
      rw [List.append_nil] at this
      rw [this, runsOk, decide_eq_true_eq]
      omega
  | cons c cs ih =>
    intro n
    rw [collapseNlGo]
    by_cases h : c = '\n'
    · rw [if_pos h]; exact ih (n + 1)
    · rw [if_neg h]
      unfold emitNlRun
      by_cases h3 : n ≥ 3
      · rw [if_pos h3]
        have heq : ('\n' :: '\n' :: c :: collapseNlGo 0 cs : List Char) =
            List.replicate 2 '\n' ++ c :: collapseNlGo 0 cs := rfl
        rw [show (['\n', '\n'] ++ c :: collapseNlGo 0 cs : List Char) =
            List.replicate 2 '\n' ++ c :: collapseNlGo 0 cs from rfl]
        rw [runsOk_replicate, runsOk, if_neg h, Bool.and_eq_true, decide_eq_true_eq]
        exact ⟨by omega, ih 0⟩
      · rw [if_neg h3, runsOk_replicate, runsOk, if_neg h,
          Bool.and_eq_true, decide_eq_true_eq]
        exact ⟨by omega, ih 0⟩

theorem noTriple_collapseNlList (l : List Char) :
    noTriple (collapseNlList l) = true :=
  runsOk_collapseNlGo l 0

theorem noTriple_tail {c : Char} {cs : List Char}
    (h : noTriple (c :: cs) = true) : noTriple cs = true :=
  runsOk_tail h

theorem noTriple_dropWhile {p : Char → Bool} {l : List Char}
    (h : noTriple l = true) : noTriple (l.dropWhile p) = true := by
  induction l with
  | nil => simpa using h
  | cons c cs ih =>
    rw [List.dropWhile_cons]
    by_cases hc : p c
    · rw [if_pos hc]
      exact ih (noTriple_tail h)
    · rw [if_neg hc]
      exact h

theorem noTriple_dropTrailWs {l : List Char}
    (h : noTriple l = true) : noTriple (dropTrailWs l) = true := by
  obtain ⟨t, ht⟩ := dropTrailWs_append_eq l
  rw [ht] at h
  exact runsOk_of_append h

theorem noTriple_trimList {l : List Char}
    (h : noTriple l = true) : noTriple (trimList l) = true :=
  noTriple_dropTrailWs (noTriple_dropWhile h)

/-! ## Supporting lemmas: placement search -/

theorem searchFrom_eq (click : HostPos → Bool) (l : List HostPos) :
    ∀ cur, searchFrom click l cur =
      match l.find? click with
      | some c => c
      | none => l.getLastD cur := by
  induction l with
  | nil => intro cur; rfl
  | cons c cs ih =>
    intro cur
    rw [searchFrom, List.find?_cons]
    by_cases h : click c
    · rw [h]; rfl
    · rw [Bool.not_eq_true] at h
      rw [h, ih c, List.getLastD_cons]
      simp

/-! ## Claim theorems -/

/-- Claim C5: the Noise Classifier returns true exactly when the input
case-insensitively contains one of the configured boilerplate phrase
fragments, or contains all three of "rules", "report" and "moderators";
otherwise it returns false. -/
theorem noiseClassifier_iff (s : String) :
    isNoiseParagraph s = true ↔
      ((∃ p ∈ noisePhrases, strIncludes (jsToLower s) p = true) ∨
       (strIncludes (jsToLower s) "rules" = true ∧
        strIncludes (jsToLower s) "report" = true ∧
        strIncludes (jsToLower s) "moderators" = true)) := by
  simp only [isNoiseParagraph, noisePhrases, Bool.or_eq_true, Bool.and_eq_true,
    List.mem_cons, List.not_mem_nil, or_false, exists_eq_or_imp, exists_eq_left]
  tauto

/-- Claim C6: the Text Collector yields the empty string for an absent
root, never includes the trimmed text of a noise-flagged element among
its collected parts, and its output has no run of three or more
consecutive newlines. -/
theorem collectText_noise_and_newlines (texts : List String) :
    collectText none = ""
  ∧ (∀ t, t ∈ texts → isNoiseParagraph (jsTrim t) = true →
      jsTrim t ∉ collectParts texts)
  ∧ noTriple (collectText (some texts)).toList = true := by
  refine ⟨rfl, ?_, ?_⟩
  · intro t ht hn hmem
    rw [collectParts] at hmem
    have hpred := (List.mem_filter.mp hmem).2
    rw [Bool.and_eq_true] at hpred
    rw [hn] at hpred
    simp at hpred
  · show noTriple (jsTrim ⟨collapseNlList (joinBlank (collectParts texts)).toList⟩).toList = true
    rw [jsTrim, toList_mk, toList_mk]
    exact noTriple_trimList (noTriple_collapseNlList _)

/-- Witness for C6 at a concrete subtree: a bot-disclaimer paragraph is
flagged noisy and excluded from the collected parts. -/
theorem collectText_noise_and_newlines_witness :
    ("i am a bot beep" ∈ (["hello world", "i am a bot beep"] : List String))
  ∧ isNoiseParagraph (jsTrim "i am a bot beep") = true
  ∧ jsTrim "i am a bot beep" ∉ collectParts ["hello world", "i am a bot beep"] :=
  ⟨by decide, by decide,
    (collectText_noise_and_newlines ["hello world", "i am a bot beep"]).2.1
      "i am a bot beep" (by decide) (by decide)⟩

/-- Claim C9: the placement search tries the four corners in the fixed
order bottom-right, bottom-left, top-right, top-left, then the five
100-unit upward slides, stopping at the first candidate whose hit-test
passes; when every candidate fails it settles at the last attempted
offset (right 16, bottom 516) and never throws. -/
theorem placement_corner_priority (click : HostPos → Bool) (p0 : HostPos) :
    candidatePositions =
      [⟨none, some 16, none, some 16⟩, ⟨some 16, none, none, some 16⟩,
       ⟨none, some 16, some 16, none⟩, ⟨some 16, none, some 16, none⟩,
       ⟨none, some 16, none, some 116⟩, ⟨none, some 16, none, some 216⟩,
       ⟨none, some 16, none, some 316⟩, ⟨none, some 16, none, some 416⟩,
       ⟨none, some 16, none, some 516⟩]
  ∧ (∀ c, candidatePositions.find? click = some c → ensureVisible click p0 = c)
  ∧ (candidatePositions.find? click = none →
      ensureVisible click p0 = ⟨none, some 16, none, some 516⟩) := by
  refine ⟨rfl, ?_, ?_⟩
  · intro c hc
    rw [ensureVisible, searchFrom_eq, hc]
  · intro hnone
    rw [ensureVisible, searchFrom_eq, hnone]
    rfl

/-- Witness for C9: with every hit-test failing, the engine settles at
the last attempted slide offset. -/
theorem placement_corner_priority_witness :
    candidatePositions.find? (fun _ => false) = none
  ∧ ensureVisible (fun _ => false) ⟨none, none, none, none⟩ =
      ⟨none, some 16, none, some 516⟩ :=
  ⟨by decide,
    (placement_corner_priority (fun _ => false) ⟨none, none, none, none⟩).2.2
      (by decide)⟩

/-- Per-character invariant behind C10: the escaped stream has no raw
special characters and every ampersand starts a full entity. -/
theorem escChar_ok (cs : List Char) :
    noRawSpecials (cs.flatMap escChar) = true
  ∧ ampOk (cs.flatMap escChar) = true := by
  induction cs with
  | nil => exact ⟨rfl, rfl⟩
  | cons c cs ih =>
    rw [List.flatMap_cons]
    by_cases h1 : c = '&'
    · subst h1; exact ⟨ih.1, ih.2⟩
    · by_cases h2 : c = '<'
      · subst h2; exact ⟨ih.1, ih.2⟩
      · by_cases h3 : c = '>'
        · subst h3; exact ⟨ih.1, ih.2⟩
        · by_cases h4 : c = '"'
          · subst h4; exact ⟨ih.1, ih.2⟩
          · by_cases h5 : c = '\''
            · subst h5; exact ⟨ih.1, ih.2⟩
            · rw [escChar, if_neg h1, if_neg h2, if_neg h3, if_neg h4, if_neg h5]
              constructor
              · rw [List.singleton_append, noRawSpecials, List.all_cons]
                rw [show ((!(c = '<' || c = '>' || c = '"' || c = '\'')) : Bool) = true
                  by simp [h2, h3, h4, h5]]
                exact ih.1
              · rw [List.singleton_append, ampOk, if_neg h1]
                simpa using ih.2

/-- Claim C10: `escapeHtml` output contains no raw angle bracket or
quote character, every ampersand in it begins one of the five entities,
and therefore the overlay header built from any page title contains
exactly the two `<` and two `>` of its own template. -/
theorem escapeHtml_no_markup (s : String) :
    noRawSpecials (escapeHtml s).toList = true
  ∧ ampOk (escapeHtml s).toList = true
  ∧ (headerHtml s).toList.count '<' = 2
  ∧ (headerHtml s).toList.count '>' = 2 := by
  have h := escChar_ok s.toList
  have htoList : (escapeHtml s).toList = s.toList.flatMap escChar := rfl
  have hcount : ∀ a : Char, (a = '<' ∨ a = '>') →
      (escapeHtml s).toList.count a = 0 := by
    intro a ha
    rw [List.count_eq_zero]
    intro hmem
    rw [htoList] at hmem
    have hall := List.all_eq_true.mp h.1 a hmem
    rcases ha with ha | ha <;> (subst ha; simp at hall)
  have happ : (headerHtml s).toList =
      "<div>Summary — ".toList ++ (escapeHtml s).toList ++ "</div>".toList := rfl
  refine ⟨h.1, h.2, ?_, ?_⟩
  · rw [happ, List.count_append, List.count_append,
      hcount '<' (Or.inl rfl)]
    decide
  · rw [happ, List.count_append, List.count_append,
      hcount '>' (Or.inr rfl)]
    decide

/-- Counterexample to C1 as stated: on a concrete page, the trace of
`extractArticleText` does not place the expander before the settle
delay — content.js awaits the 300 ms delay first (line 124) and only
then calls `expandCollapsers()` (line 125). -/
theorem expander_before_delay_cex :
    ¬ ((extractArticleText ⟨false, "", "", "", none, "Doc"⟩).trace.indexOf
          Step.expand <
        (extractArticleText ⟨false, "", "", "", none, "Doc"⟩).trace.indexOf
          Step.settleDelay) := by
  decide

/-- Claim C1 (amended): in every extraction attempt the fixed settle
delay is waited first and only then is the Collapsed-Content Expander
run; both still precede every text-measurement step of the chain. -/
theorem delay_then_expander (p : Page) :
    ∃ rest, (extractArticleText p).trace =
        Step.settleDelay :: Step.expand :: rest
      ∧ Step.settleDelay ∉ rest ∧ Step.expand ∉ rest := by
  refine ⟨(if p.isReddit then [Step.siteExtract] else []) ++
      (if scannerCond p then [Step.scanCandidates] else []) ++
      (if readabCond p then [Step.readabilityFallback] else []), ?_, ?_, ?_⟩
  · rfl
  · split <;> split <;> split <;> simp
  · split <;> split <;> split <;> simp

/-- Counterexample to C2 as stated: every position hit-tests clickable,
yet after a drag to the custom offset (right 216, bottom 316) the
pointer-up handler snaps the control back to the bottom-right corner:
the custom offset is never re-tested first and is not kept. -/
theorem drag_custom_offset_not_kept :
    onDragMove 16 16 500 500 300 200 ⟨none, some 16, none, some 16⟩ =
      ⟨none, some 216, none, some 316⟩
  ∧ onUp (fun _ => true) ⟨none, some 216, none, some 316⟩ =
      ⟨none, some 16, none, some 16⟩
  ∧ (⟨none, some 216, none, some 316⟩ : HostPos) ≠
      ⟨none, some 16, none, some 16⟩ := by
  refine ⟨by decide, by decide, by decide⟩

/-- Claim C2 (amended): pointer-up (and every scroll/resize/mutation
signal, which calls the same `ensureVisible`) re-runs the corner/offset
search from scratch: whenever some candidate passes the hit-test, the
control ends at the first passing candidate, independent of the dragged
offset — a clickable user-placed position is not preserved. -/
theorem onUp_searches_from_scratch (click : HostPos → Bool) (cur : HostPos)
    (c : HostPos) (h : candidatePositions.find? click = some c) :
    onUp click cur = c := by
  rw [onUp, ensureVisible, searchFrom_eq, h]

/-- Witness for the amended C2: with only top-anchored positions
clickable, pointer-up from an arbitrary dragged offset lands on the
top-right corner (the first passing candidate). -/
theorem onUp_searches_from_scratch_witness :
    candidatePositions.find? (fun p => p.top.isSome) =
      some ⟨none, some 16, some 16, none⟩
  ∧ onUp (fun p => p.top.isSome) ⟨some 3, some 4, none, some 5⟩ =
      ⟨none, some 16, some 16, none⟩ :=
  ⟨by decide,
    onUp_searches_from_scratch (fun p => p.top.isSome)
      ⟨some 3, some 4, none, some 5⟩ ⟨none, some 16, some 16, none⟩ (by decide)⟩

/-- Counterexample to C3 as stated: in the simplified client variant, a
2xx response whose JSON has no summary field succeeds with the empty
string instead of failing with the no-summary-field error. -/
theorem simple_variant_misses_malformed :
    summarizeTextSimple ⟨200, some "", none⟩ = .ok "" := by
  decide

/-- Claim C3 (amended): in the primary client (content.js lines 164–177
and the shadow-DOM variant), a non-2xx response fails with
`backendError` carrying the status and recovered body text, a 2xx
response with no summary field fails with `malformedResponse`, and a
success returns exactly the summary field; the simplified variant
(content.js lines 322–334) instead maps a missing summary field on a 2xx
response to an empty-string success. -/
theorem summarize_client_contract (r : HttpResponse) :
    (respOk r = false →
      summarizeText r = .error (.backendError r.status (r.bodyText.getD "")))
  ∧ (respOk r = true → r.summaryField = none →
      summarizeText r = .error .malformedResponse)
  ∧ (∀ s, summarizeText r = .ok s → r.summaryField = some s)
  ∧ (respOk r = true → summarizeTextSimple r = .ok (r.summaryField.getD "")) := by
  refine ⟨?_, ?_, ?_, ?_⟩
  · intro h
    rw [summarizeText, h]
    rfl
  · intro h hn
    rw [summarizeText, h, hn]
    rfl
  · intro s hs
    rw [summarizeText] at hs
    split at hs
    · split at hs
      · simp at hs
      · rename_i s' heq
        split at hs
        · simp at hs
        · simp only [Except.ok.injEq] at hs
          rw [heq, hs]
    · simp at hs
  · intro h
    rw [summarizeTextSimple, h]
    rfl

/-- Witness for the amended C3: a 404 with body "nf" fails with the
backend error carrying both. -/
theorem summarize_client_contract_witness :
    respOk ⟨404, some "nf", some "x"⟩ = false
  ∧ summarizeText ⟨404, some "nf", some "x"⟩ =
      .error (.backendError 404 "nf") :=
  ⟨by decide, (summarize_client_contract ⟨404, some "nf", some "x"⟩).1 (by decide)⟩

/-- The text held after step 2 is trimmed: it is either the Reddit
extractor's `collectText` output or the empty string. -/
theorem isTrimmed_step2Text (p : Page) (h : IsTrimmed p.siteText) :
    IsTrimmed (step2Text p) := by
  rw [step2Text]
  split
  · exact h
  · exact isTrimmed_empty

/-- The text held after step 3 is trimmed. -/
theorem isTrimmed_step3Text (p : Page) (h1 : IsTrimmed p.siteText)
    (h2 : IsTrimmed p.largestText) : IsTrimmed (step3Text p) := by
  rw [step3Text]
  split
  · split
    · exact h2
    · exact isTrimmed_step2Text p h1
  · exact isTrimmed_step2Text p h1

/-- The text held at the line-157 emptiness check is trimmed: the
`Readability` branch applies `.trim()` itself and every other branch
keeps a `collectText` output. -/
theorem isTrimmed_heldText (p : Page) (h1 : IsTrimmed p.siteText)
    (h2 : IsTrimmed p.largestText) : IsTrimmed (step4 p).2 := by
  rw [step4]
  split
  · split
    · exact isTrimmed_step3Text p h1 h2
    · split
      · split
        · exact jsTrim_isTrimmed _
        · exact isTrimmed_step3Text p h1 h2
      · exact isTrimmed_step3Text p h1 h2
  · exact isTrimmed_step3Text p h1 h2

/-- Claim C4: on every page whose strategy texts are trimmed (which the
source guarantees — they are `collectText` outputs or explicitly
trimmed), `extractArticleText` fails with the `ExtractionFailed` message
exactly when the step-6 normalization of the held text is empty, and
every successful result carries a non-empty `text`. -/
theorem extract_fails_iff_empty (p : Page) (h1 : IsTrimmed p.siteText)
    (h2 : IsTrimmed p.largestText) :
    ((extractArticleText p).result = .error extractionFailedMsg ↔
      normalizeText (extractArticleText p).heldText = "")
  ∧ (∀ r, (extractArticleText p).result = .ok r → r.text ≠ "") := by
  have htr : IsTrimmed (step4 p).2 := isTrimmed_heldText p h1 h2
  have hheld : (extractArticleText p).heldText = (step4 p).2 := rfl
  have hres : (extractArticleText p).result =
      (if (step4 p).2 = "" then .error extractionFailedMsg
       else .ok ⟨if (step4 p).1 = "" then p.docTitle else (step4 p).1,
                 normalizeText (step4 p).2⟩) := rfl
  constructor
  · rw [hheld, hres]
    by_cases hempty : (step4 p).2 = ""
    · rw [if_pos hempty, hempty]
      have hnorm : normalizeText "" = "" := by decide
      simp [hnorm]
    · rw [if_neg hempty]
      constructor
      · intro hcon
        simp at hcon
      · intro hn
        exact absurd hn (normalizeText_ne_empty htr hempty)
  · intro r hr
    rw [hres] at hr
    by_cases hempty : (step4 p).2 = ""
    · rw [if_pos hempty] at hr
      simp at hr
    · rw [if_neg hempty] at hr
      simp only [Except.ok.injEq] at hr
      rw [← hr]
      exact normalizeText_ne_empty htr hempty

/-- Witness for C4 at a concrete page: extraction succeeds and the iff
holds with a non-empty normalized text. -/
theorem extract_fails_iff_empty_witness :
    IsTrimmed (Page.siteText ⟨false, "", "", "hello", none, "Doc"⟩)
  ∧ IsTrimmed (Page.largestText ⟨false, "", "", "hello", none, "Doc"⟩)
  ∧ (((extractArticleText ⟨false, "", "", "hello", none, "Doc"⟩).result =
        .error extractionFailedMsg ↔
      normalizeText
        (extractArticleText ⟨false, "", "", "hello", none, "Doc"⟩).heldText = "")
    ∧ (∀ r, (extractArticleText ⟨false, "", "", "hello", none, "Doc"⟩).result =
        .ok r → r.text ≠ "")) :=
  ⟨by unfold IsTrimmed; decide, by unfold IsTrimmed; decide,
    extract_fails_iff_empty ⟨false, "", "", "hello", none, "Doc"⟩
      (by unfold IsTrimmed; decide) (by unfold IsTrimmed; decide)⟩

/-- Claim C7: when the site-specific extractor applies and yields text of
normalized length at least 800, neither the Candidate Scanner nor the
readability fallback is invoked, and the returned text is the site
extractor's text (after the final normalization), with its title subject
only to the document-title fallback. -/
theorem site_rich_short_circuit (p : Page) (hr : p.isReddit = true)
    (hlen : 800 ≤ normLen p.siteText) :
    (extractArticleText p).scannerInvoked = false
  ∧ (extractArticleText p).readabilityInvoked = false
  ∧ (extractArticleText p).result =
      .ok ⟨if p.siteTitle = "" then p.docTitle else p.siteTitle,
           normalizeText p.siteText⟩ := by
  have hne : p.siteText ≠ "" := by
    intro h
    have hz : normLen "" = 0 := by decide
    rw [h, hz] at hlen
    omega
  have h2t : step2Text p = p.siteText := by
    rw [step2Text, if_pos hr]
  have h2ti : step2Title p = p.siteTitle := by
    rw [step2Title, if_pos hr]
  have hscan : scannerCond p = false := by
    rw [scannerCond, h2t]
    simp only [Bool.or_eq_false_iff, decide_eq_false_iff_not]
    exact ⟨hne, by omega⟩
  have h3t : step3Text p = p.siteText := by
    rw [step3Text, hscan]
    simp [h2t]
  have hread : readabCond p = false := by
    rw [readabCond, h3t]
    simp only [Bool.or_eq_false_iff, decide_eq_false_iff_not]
    exact ⟨hne, by omega⟩
  have h4 : step4 p = (p.siteTitle, p.siteText) := by
    rw [step4, hread]
    simp [h2ti, h3t]
  refine ⟨hscan, hread, ?_⟩
  have hres : (extractArticleText p).result =
      (if (step4 p).2 = "" then Except.error extractionFailedMsg
       else Except.ok ⟨if (step4 p).1 = "" then p.docTitle else (step4 p).1,
                normalizeText (step4 p).2⟩) := rfl
  rw [hres, h4]
  dsimp only
  rw [if_neg hne]

set_option maxRecDepth 100000 in
/-- Witness for C7: a Reddit page whose site extractor yields 800
characters of plain text short-circuits the chain. -/
theorem site_rich_short_circuit_witness :
    (⟨true, "T", String.mk (List.replicate 800 'a'), "", none, "Doc"⟩ :
        Page).isReddit = true
  ∧ 800 ≤ normLen (String.mk (List.replicate 800 'a'))
  ∧ ((extractArticleText
        ⟨true, "T", String.mk (List.replicate 800 'a'), "", none, "Doc"⟩).scannerInvoked
          = false
    ∧ (extractArticleText
        ⟨true, "T", String.mk (List.replicate 800 'a'), "", none, "Doc"⟩).readabilityInvoked
          = false
    ∧ (extractArticleText
        ⟨true, "T", String.mk (List.replicate 800 'a'), "", none, "Doc"⟩).result =
        .ok ⟨if "T" = "" then "Doc" else "T",
             normalizeText (String.mk (List.replicate 800 'a'))⟩) :=
  ⟨rfl, by decide,
    site_rich_short_circuit
      ⟨true, "T", String.mk (List.replicate 800 'a'), "", none, "Doc"⟩
      rfl (by decide)⟩

/-- Claim C8: whenever extraction succeeds with text shorter than 80
characters, the click handler shows the too-short error and the
Summarization Client is never called in that cycle. -/
theorem too_short_skips_backend (p : Page)
    (backend : String → Except SummarizeError String) (r : ExtractionResult)
    (h1 : (extractArticleText p).result = .ok r) (h2 : r.text.length < 80) :
    tldrOnClick p backend = ⟨"Summary Error", tooShortMsg, false⟩ := by
  rw [tldrOnClick, h1]
  simp only []
  rw [if_pos h2]

/-- Witness for C8: a five-character extraction shows the too-short
error without calling the backend. -/
theorem too_short_skips_backend_witness :
    (extractArticleText ⟨true, "T", "short", "", none, "Doc"⟩).result =
      .ok ⟨"T", "short"⟩
  ∧ tldrOnClick ⟨true, "T", "short", "", none, "Doc"⟩ (fun _ => .ok "S") =
      ⟨"Summary Error", tooShortMsg, false⟩ :=
  ⟨by decide,
    too_short_skips_backend ⟨true, "T", "short", "", none, "Doc"⟩
      (fun _ => .ok "S") ⟨"T", "short"⟩ (by decide) (by decide)⟩

end SRC
